import Mathlib

/-!
Verification of the `RollingTokenManager` from `src/lib.rs` (a rolling
HMAC-SHA256 token scheme).  The Rust code is shallowly embedded: bytes are
`Nat`s below 256, `i64` values are `Int` (with the `u64 -> i64` cast and the
panicking division modelled explicitly where a claim depends on them), the
wall clock is an explicit parameter, and the `&mut self` methods are state
transformers.  HMAC-SHA256 and hex encoding are implemented in full so that
token strings are the actual strings the Rust program computes.
-/

namespace RollingToken

/-- Truncate to a 32-bit word, as Rust `u32` wrapping arithmetic does. -/
def w32 (x : Nat) : Nat := x % 4294967296

/-- Rotate a 32-bit word right by `n` bits (`x.rotate_right(n)` for `x < 2^32`). -/
def rotr32 (n x : Nat) : Nat := w32 ((x >>> n) ||| (x <<< (32 - n)))

/-- SHA-256 big sigma 0. -/
def bsig0 (x : Nat) : Nat := rotr32 2 x ^^^ rotr32 13 x ^^^ rotr32 22 x

/-- SHA-256 big sigma 1. -/
def bsig1 (x : Nat) : Nat := rotr32 6 x ^^^ rotr32 11 x ^^^ rotr32 25 x

/-- SHA-256 small sigma 0. -/
def ssig0 (x : Nat) : Nat := rotr32 7 x ^^^ rotr32 18 x ^^^ (x >>> 3)

/-- SHA-256 small sigma 1. -/
def ssig1 (x : Nat) : Nat := rotr32 17 x ^^^ rotr32 19 x ^^^ (x >>> 10)

/-- SHA-256 choice function (complement taken inside 32 bits). -/
def ch (x y z : Nat) : Nat := (x &&& y) ^^^ ((x ^^^ 4294967295) &&& z)

/-- SHA-256 majority function. -/
def maj (x y z : Nat) : Nat := (x &&& y) ^^^ (x &&& z) ^^^ (y &&& z)

/-- The 64 SHA-256 round constants. -/
def sha256K : List Nat :=
  [1116352408, 1899447441, 3049323471, 3921009573, 961987163, 1508970993,
   2453635748, 2870763221, 3624381080, 310598401, 607225278, 1426881987,
   1925078388, 2162078206, 2614888103, 3248222580, 3835390401, 4022224774,
   264347078, 604807628, 770255983, 1249150122, 1555081692, 1996064986,
   2554220882, 2821834349, 2952996808, 3210313671, 3336571891, 3584528711,
   113926993, 338241895, 666307205, 773529912, 1294757372, 1396182291,
   1695183700, 1986661051, 2177026350, 2456956037, 2730485921, 2820302411,
   3259730800, 3345764771, 3516065817, 3600352804, 4094571909, 275423344,
   430227734, 506948616, 659060556, 883997877, 958139571, 1322822218,
   1537002063, 1747873779, 1955562222, 2024104815, 2227730452, 2361852424,
   2428436474, 2756734187, 3204031479, 3329325298]

/-- One step of the SHA-256 message-schedule extension.  `rev` holds the words
computed so far, most recent first, so `W[i-2]` is `rev[1]`, `W[i-7]` is
`rev[6]`, `W[i-15]` is `rev[14]` and `W[i-16]` is `rev[15]`. -/
def scheduleStep (rev : List Nat) : Nat :=
  w32 (ssig1 (rev.getD 1 0) + rev.getD 6 0 + ssig0 (rev.getD 14 0) + rev.getD 15 0)

/-- Extend the schedule by `k` more words (most recent word first). -/
def buildW : Nat → List Nat → List Nat
  | 0, rev => rev.reverse
  | k + 1, rev => buildW k (scheduleStep rev :: rev)

/-- The 64-word message schedule of a 16-word block. -/
def msgSchedule (block : List Nat) : List Nat := buildW 48 block.reverse

/-- The eight 32-bit working variables of SHA-256. -/
structure Sha256State where
  a : Nat
  b : Nat
  c : Nat
  d : Nat
  e : Nat
  f : Nat
  g : Nat
  h : Nat

/-- One round of the SHA-256 compression function. -/
def compressRound (st : Sha256State) (k w : Nat) : Sha256State :=
  let t1 := w32 (st.h + bsig1 st.e + ch st.e st.f st.g + k + w)
  let t2 := w32 (bsig0 st.a + maj st.a st.b st.c)
  ⟨w32 (t1 + t2), st.a, st.b, st.c, w32 (st.d + t1), st.e, st.f, st.g⟩

/-- Compress one 16-word block into the state. -/
def compressBlock (st : Sha256State) (block : List Nat) : Sha256State :=
  let ws := msgSchedule block
  let fin := (sha256K.zip ws).foldl (fun s kw => compressRound s kw.1 kw.2) st
  ⟨w32 (st.a + fin.a), w32 (st.b + fin.b), w32 (st.c + fin.c), w32 (st.d + fin.d),
   w32 (st.e + fin.e), w32 (st.f + fin.f), w32 (st.g + fin.g), w32 (st.h + fin.h)⟩

/-- The SHA-256 initial hash value. -/
def initialState : Sha256State :=
  ⟨1779033703, 3144134277, 1013904242, 2773480762, 1359893119, 2600822924, 528734635, 1541459225⟩

/-- `k`-byte big-endian encoding of `n`. -/
def natToBytesBE (k n : Nat) : List Nat :=
  (List.range k).map (fun i => (n >>> (8 * (k - 1 - i))) % 256)

/-- SHA-256 padding: append `0x80`, zero bytes, and the 64-bit big-endian bit
length, reaching a multiple of 64 bytes. -/
def padMessage (msg : List Nat) : List Nat :=
  let len := msg.length
  let zeros := (64 - (len + 9) % 64) % 64
  msg ++ 0x80 :: List.replicate zeros 0 ++ natToBytesBE 8 (8 * len)

/-- Big-endian bytes to 32-bit words (four bytes per word). -/
def bytesToWords : List Nat → List Nat
  | b0 :: b1 :: b2 :: b3 :: rest =>
      ((b0 <<< 24) ||| (b1 <<< 16) ||| (b2 <<< 8) ||| b3) :: bytesToWords rest
  | _ => []

/-- Split a word list into 16-word blocks (the padded message is always a
multiple of 16 words). -/
def toBlocks : List Nat → List (List Nat)
  | w0 :: w1 :: w2 :: w3 :: w4 :: w5 :: w6 :: w7 ::
    w8 :: w9 :: w10 :: w11 :: w12 :: w13 :: w14 :: w15 :: rest =>
      [w0, w1, w2, w3, w4, w5, w6, w7, w8, w9, w10, w11, w12, w13, w14, w15] :: toBlocks rest
  | _ => []

/-- The four big-endian bytes of a 32-bit word. -/
def wordBytes (w : Nat) : List Nat :=
  [(w >>> 24) % 256, (w >>> 16) % 256, (w >>> 8) % 256, w % 256]

/-- SHA-256 of a byte list, as its 32 digest bytes. -/
def sha256 (msg : List Nat) : List Nat :=
  let st := (toBlocks (bytesToWords (padMessage msg))).foldl compressBlock initialState
  wordBytes st.a ++ wordBytes st.b ++ wordBytes st.c ++ wordBytes st.d ++
  wordBytes st.e ++ wordBytes st.f ++ wordBytes st.g ++ wordBytes st.h

/-- HMAC-SHA256 (block size 64): keys longer than a block are hashed first,
then zero-padded, exactly as the `hmac` crate does for any key length. -/
def hmacSha256 (key msg : List Nat) : List Nat :=
  let k0 := if 64 < key.length then sha256 key else key
  let kpad := k0 ++ List.replicate (64 - k0.length) 0
  let inner := sha256 (kpad.map (fun b => b ^^^ 0x36) ++ msg)
  sha256 (kpad.map (fun b => b ^^^ 0x5c) ++ inner)

/-- The sixteen lowercase hex digits, in value order. -/
def hexDigits : List Char :=
  ['0', '1', '2', '3', '4', '5', '6', '7'] ++ ['8', '9', 'a', 'b', 'c', 'd', 'e', 'f']

/-- The two lowercase hex characters of a byte (`hex::encode` per byte). -/
def byteHex (b : Nat) : List Char := [hexDigits.getD (b / 16) '0', hexDigits.getD (b % 16) '0']

/-- `hex::encode`: lowercase hex string of a byte list. -/
def hexEncode (bs : List Nat) : String := String.mk ((bs.map byteHex).flatten)

/-- Decimal digits of a positive natural, with a fuel argument for structural
recursion (`fuel ≥ n` suffices). -/
def natDecimalAux : Nat → Nat → List Char
  | 0, _ => []
  | _, 0 => []
  | fuel + 1, n => natDecimalAux fuel (n / 10) ++ [hexDigits.getD (n % 10) '0']

/-- Decimal string of a natural number, no leading zeros. -/
def natDecimal (n : Nat) : String :=
  if n = 0 then "0" else String.mk (natDecimalAux n n)

/-- Rust `i64::to_string`: decimal digits, leading `-` for negative values. -/
def intDecimal (i : Int) : String :=
  if i < 0 then "-" ++ natDecimal i.natAbs else natDecimal i.toNat

/-- Rust `str::as_bytes` for the ASCII strings fed to the MAC. -/
def strBytes (s : String) : List Nat := s.data.map Char.toNat

/-- The token string for a slot: `hex::encode` of the HMAC-SHA256 of the
slot's decimal string under the secret (`generate_token_with_offset`,
lines 43–49 of `lib.rs`). -/
def tokenString (secret : List Nat) (slot : Int) : String :=
  hexEncode (hmacSha256 secret (strBytes (intDecimal slot)))

/-- `struct Token { token: String, timestamp: i64 }`. -/
structure Token where
  token : String
  timestamp : Int
  deriving DecidableEq

/-- `struct RollingTokenManager`: secret bytes, slot interval in seconds,
tolerance in slots, and the working set of active tokens. -/
structure RollingTokenManager where
  secret : List Nat
  interval : Int
  tolerance : Int
  active_tokens : List Token
  deriving DecidableEq

namespace RollingTokenManager

/-- `RollingTokenManager::new`: stores secret and interval verbatim,
`tolerance.unwrap_or(1)`, empty active set.  No argument is validated. -/
def new (secret : List Nat) (interval : Int) (tolerance : Option Int) : RollingTokenManager :=
  ⟨secret, interval, tolerance.getD 1, []⟩

/-- Rust's `as i64` cast of a `u64` value (`n < 2^64`): wraps at `2^63`. -/
def u64AsI64 (n : Nat) : Int :=
  if n % 18446744073709551616 < 9223372036854775808 then (n % 18446744073709551616 : Nat)
  else (n % 18446744073709551616 : Nat) - 18446744073709551616

/-- `current_timestamp`: seconds since the epoch, cast `as i64`, divided by
`interval` with Rust's truncating `i64` division.  The wall clock reading
`now` (the `u64` from `as_secs`) is an explicit parameter. -/
def current_timestamp (m : RollingTokenManager) (now : Nat) : Int :=
  Int.tdiv (u64AsI64 now) m.interval

/-- Rust `i64::abs` (the `i64::MIN` overflow panic is irrelevant at the slot
magnitudes any claim touches). -/
def iabs (a : Int) : Int := if a < 0 then -a else a

/-- `generate_token_with_offset`: token for slot `current_timestamp() + offset`. -/
def generate_token_with_offset (m : RollingTokenManager) (now : Nat) (offset : Int) : Token :=
  let timestamp := current_timestamp m now + offset
  ⟨tokenString m.secret timestamp, timestamp⟩

/-- `generate_token`: `generate_token_with_offset(0)`. -/
def generate_token (m : RollingTokenManager) (now : Nat) : Token :=
  generate_token_with_offset m now 0

/-- `&self` receivers: generation as a state transformer passes the manager
through unchanged, since the Rust methods take `&self`. -/
def generate_token_with_offset_call (m : RollingTokenManager) (now : Nat) (offset : Int) :
    RollingTokenManager × Token :=
  (m, generate_token_with_offset m now offset)

/-- `generate_token` as a state transformer (`&self`: state unchanged). -/
def generate_token_call (m : RollingTokenManager) (now : Nat) : RollingTokenManager × Token :=
  (m, generate_token m now)

/-- Rust `(-tolerance..=tolerance)` shifted by `current_time`: the inclusive
integer range `[a, b]` as a list, empty when `a > b`. -/
def rangeIncl (a b : Int) : List Int :=
  (List.range (b + 1 - a).toNat).map (fun (k : Nat) => a + (k : Int))

/-- `refresh_tokens` (lines 58–83): prune tokens outside tolerance, short
circuit when the pruned set already has `1 + 2*tolerance` members, otherwise
generate the window timestamps not already present and push them. -/
def refresh_tokens (m : RollingTokenManager) (now : Nat) : RollingTokenManager :=
  let current_time := current_timestamp m now
  let retained := m.active_tokens.filter (fun tok => iabs (tok.timestamp - current_time) ≤ m.tolerance)
  if (retained.length : Int) = 1 + 2 * m.tolerance then
    { m with active_tokens := retained }
  else
    let needed0 := rangeIncl (current_time - m.tolerance) (current_time + m.tolerance)
    let needed := retained.foldl (fun acc tok => acc.filter (fun t => t ≠ tok.timestamp)) needed0
    { m with active_tokens :=
        retained ++ needed.map (fun timestamp => generate_token_with_offset m now (timestamp - current_time)) }

/-- `is_valid`: refresh, then check whether any active token's string equals
the candidate (exact string equality). -/
def is_valid (m : RollingTokenManager) (now : Nat) (token : String) : RollingTokenManager × Bool :=
  let m1 := refresh_tokens m now
  (m1, m1.active_tokens.any (fun t => t.token == token))

/-- `SystemTime::now().duration_since(UNIX_EPOCH).unwrap().as_secs()` with the
wall clock given as signed seconds relative to the epoch: `duration_since`
`Err`s (so `unwrap` panics, modelled as `none`) for a clock before the epoch. -/
def as_secs_after_epoch (wall : Int) : Option Nat :=
  if wall < 0 then none else some wall.toNat

/-- Rust `i64` division as the code runs it: panics (`none`) on a zero divisor
and on the `i64::MIN / -1` overflow. -/
def i64DivChecked (a b : Int) : Option Int :=
  if b = 0 ∨ (a = -9223372036854775808 ∧ b = -1) then none else some (Int.tdiv a b)

/-- `current_timestamp` with its two panic sources (the `unwrap` and the
division) made explicit. -/
def current_timestampChecked (m : RollingTokenManager) (wall : Int) : Option Int := do
  let s ← as_secs_after_epoch wall
  i64DivChecked (u64AsI64 s) m.interval

/-- `generate_token_with_offset` with panics explicit.  The
`HmacSha256::new_from_slice(..).expect(..)` never fires: `hmacSha256` accepts
every key length, as the `hmac` crate does. -/
def generate_token_with_offsetChecked (m : RollingTokenManager) (wall : Int) (offset : Int) :
    Option Token := do
  let ct ← current_timestampChecked m wall
  pure ⟨tokenString m.secret (ct + offset), ct + offset⟩

/-- `refresh_tokens` with panics explicit: each of its `current_timestamp`
calls (one direct, one per generated token) can panic. -/
def refresh_tokensChecked (m : RollingTokenManager) (wall : Int) : Option RollingTokenManager := do
  let current_time ← current_timestampChecked m wall
  let retained := m.active_tokens.filter (fun tok => iabs (tok.timestamp - current_time) ≤ m.tolerance)
  if (retained.length : Int) = 1 + 2 * m.tolerance then
    pure { m with active_tokens := retained }
  else
    let needed0 := rangeIncl (current_time - m.tolerance) (current_time + m.tolerance)
    let needed := retained.foldl (fun acc tok => acc.filter (fun t => t ≠ tok.timestamp)) needed0
    let generated ← needed.mapM (fun timestamp => generate_token_with_offsetChecked m wall (timestamp - current_time))
    pure { m with active_tokens := retained ++ generated }

/-- `is_valid` with panics explicit. -/
def is_validChecked (m : RollingTokenManager) (wall : Int) (token : String) :
    Option (RollingTokenManager × Bool) := do
  let m1 ← refresh_tokensChecked m wall
  pure (m1, m1.active_tokens.any (fun t => t.token == token))

/-- The module invariant on `active_tokens`: timestamps are pairwise distinct
and every token's string is the derived token string for its timestamp.  It
holds at construction and is preserved by every method (the field is private
in Rust, so these are the only states a manager can be in). -/
def WellFormed (m : RollingTokenManager) : Prop :=
  (m.active_tokens.map Token.timestamp).Nodup ∧
  ∀ tok ∈ m.active_tokens, tok.token = tokenString m.secret tok.timestamp

instance decidableWellFormed (m : RollingTokenManager) : Decidable (WellFormed m) :=
  inferInstanceAs (Decidable ((m.active_tokens.map Token.timestamp).Nodup ∧
    ∀ tok ∈ m.active_tokens, tok.token = tokenString m.secret tok.timestamp))

/-- The managers the public API can produce: constructed by `new`, then
stepped only by `is_valid` (the generation methods take `&self`). -/
inductive Reachable : RollingTokenManager → Prop
  | init (secret : List Nat) (interval : Int) (tolerance : Option Int) :
      Reachable (new secret interval tolerance)
  | step (m : RollingTokenManager) (now : Nat) (token : String) (h : Reachable m) :
      Reachable (is_valid m now token).1

end RollingTokenManager

/-- The bytes of `b"test_secret"`, the secret the repository's tests use. -/
def testSecret : List Nat := [116, 101, 115, 116, 95, 115, 101, 99, 114, 101, 116]

theorem sha256_length (msg : List Nat) : (sha256 msg).length = 32 := by
  simp [sha256, wordBytes]

theorem sha256_mem_lt (msg : List Nat) : ∀ b ∈ sha256 msg, b < 256 := by
  intro b hb
  simp [sha256, wordBytes] at hb
  omega

theorem hmacSha256_length (key msg : List Nat) : (hmacSha256 key msg).length = 32 :=
  sha256_length _

theorem hexEncode_data (bs : List Nat) : (hexEncode bs).data = (bs.map byteHex).flatten := rfl

theorem hexEncode_length (bs : List Nat) : (hexEncode bs).data.length = 2 * bs.length := by
  rw [hexEncode_data]
  induction bs with
  | nil => rfl
  | cons b t ih => simp only [List.map_cons, List.flatten_cons, List.length_append, ih,
      List.length_cons, byteHex, List.length_nil]; omega

theorem getD_hexDigits_mem (n : Nat) (d : Char) (hd : d ∈ hexDigits) :
    hexDigits.getD n d ∈ hexDigits := by
  rcases Nat.lt_or_ge n hexDigits.length with h | h
  · rw [List.getD_eq_getElem _ _ h]
    exact List.getElem_mem h
  · rwa [List.getD_eq_default _ _ h]

theorem byteHex_mem (b : Nat) : ∀ c ∈ byteHex b, c ∈ hexDigits := by
  intro c hc
  simp only [byteHex, List.mem_cons, List.not_mem_nil, or_false] at hc
  rcases hc with rfl | rfl
  · exact getD_hexDigits_mem _ _ (by simp [hexDigits])
  · exact getD_hexDigits_mem _ _ (by simp [hexDigits])

theorem hexEncode_mem (bs : List Nat) : ∀ c ∈ (hexEncode bs).data, c ∈ hexDigits := by
  intro c hc
  rw [hexEncode_data] at hc
  rcases List.mem_flatten.mp hc with ⟨s, hs, hcs⟩
  rcases List.mem_map.mp hs with ⟨b, _, rfl⟩
  exact byteHex_mem b c hcs

theorem tokenString_length (secret : List Nat) (slot : Int) :
    (tokenString secret slot).data.length = 64 := by
  rw [tokenString, hexEncode_length, hmacSha256_length]

theorem tokenString_mem (secret : List Nat) (slot : Int) :
    ∀ c ∈ (tokenString secret slot).data, c ∈ hexDigits := by
  rw [tokenString]
  exact hexEncode_mem _

namespace RollingTokenManager

theorem mem_rangeIncl (a b x : Int) : x ∈ rangeIncl a b ↔ a ≤ x ∧ x ≤ b := by
  simp only [rangeIncl, List.mem_map, List.mem_range]
  constructor
  · rintro ⟨k, hk, rfl⟩
    omega
  · rintro ⟨h1, h2⟩
    exact ⟨(x - a).toNat, by omega, by omega⟩

theorem nodup_rangeIncl (a b : Int) : (rangeIncl a b).Nodup := by
  refine List.Nodup.map ?_ (List.nodup_range _)
  intro x y h
  dsimp only at h
  omega

theorem iabs_le (x t : Int) : iabs x ≤ t ↔ -t ≤ x ∧ x ≤ t := by
  simp only [iabs]
  split <;> omega

theorem foldl_filter_mem (toks : List Token) (l : List Int) (x : Int) :
    x ∈ toks.foldl (fun acc tok => acc.filter (fun t => t ≠ tok.timestamp)) l ↔
      x ∈ l ∧ ∀ tok ∈ toks, x ≠ tok.timestamp := by
  induction toks generalizing l with
  | nil => simp
  | cons tok toks ih =>
      simp only [List.foldl_cons, ih, List.mem_filter, List.mem_cons, decide_eq_true_eq]
      constructor
      · rintro ⟨⟨hx, hne⟩, hall⟩
        refine ⟨hx, ?_⟩
        rintro tok' (rfl | htok')
        · simpa using hne
        · exact hall tok' htok'
      · rintro ⟨hx, hall⟩
        exact ⟨⟨hx, by simpa using hall tok (Or.inl rfl)⟩, fun tok' h => hall tok' (Or.inr h)⟩

theorem foldl_filter_sublist (toks : List Token) (l : List Int) :
    (toks.foldl (fun acc tok => acc.filter (fun t => t ≠ tok.timestamp)) l).Sublist l := by
  induction toks generalizing l with
  | nil => simp
  | cons tok toks ih =>
      exact (ih _).trans (List.filter_sublist _)

theorem nodup_bounded_full {L : List Int} {a b : Int} (hnd : L.Nodup)
    (hsub : ∀ x ∈ L, a ≤ x ∧ x ≤ b) (hlen : (L.length : Int) = b + 1 - a) :
    ∀ x, x ∈ L ↔ a ≤ x ∧ x ≤ b := by
  have hsubset : L.toFinset ⊆ Finset.Icc a b := by
    intro x hx
    exact Finset.mem_Icc.mpr (hsub x (List.mem_toFinset.mp hx))
  have hcard : (Finset.Icc a b).card ≤ L.toFinset.card := by
    rw [List.toFinset_card_of_nodup hnd, Int.card_Icc]
    omega
  have hfin : L.toFinset = Finset.Icc a b := Finset.eq_of_subset_of_card_le hsubset hcard
  intro x
  rw [← List.mem_toFinset, hfin, Finset.mem_Icc]

theorem nodup_full_length {L : List Int} {a b : Int} (hab : a ≤ b) (hnd : L.Nodup)
    (hmem : ∀ x, x ∈ L ↔ a ≤ x ∧ x ≤ b) : (L.length : Int) = b + 1 - a := by
  have hfin : L.toFinset = Finset.Icc a b := by
    ext x
    rw [List.mem_toFinset, hmem x, Finset.mem_Icc]
  have hcard := congrArg Finset.card hfin
  rw [List.toFinset_card_of_nodup hnd, Int.card_Icc] at hcard
  omega

theorem generate_at (m : RollingTokenManager) (now : Nat) (ts : Int) :
    generate_token_with_offset m now (ts - current_timestamp m now) =
      ⟨tokenString m.secret ts, ts⟩ := by
  have h : current_timestamp m now + (ts - current_timestamp m now) = ts := by ring
  simp [generate_token_with_offset, h]

theorem refresh_else_spec (m : RollingTokenManager) (now : Nat) (retained : List Token)
    (L : List Token)
    (hL : L = retained ++ (retained.foldl (fun acc tok => acc.filter (fun t => t ≠ tok.timestamp))
        (rangeIncl (current_timestamp m now - m.tolerance) (current_timestamp m now + m.tolerance))).map
        (fun timestamp => generate_token_with_offset m now (timestamp - current_timestamp m now)))
    (hnd : (retained.map Token.timestamp).Nodup)
    (hwin : ∀ tok ∈ retained, current_timestamp m now - m.tolerance ≤ tok.timestamp ∧
        tok.timestamp ≤ current_timestamp m now + m.tolerance)
    (hstr : ∀ tok ∈ retained, tok.token = tokenString m.secret tok.timestamp)
    (ht : 0 ≤ m.tolerance) :
    (L.map Token.timestamp).Nodup ∧
    (∀ ts : Int, ts ∈ L.map Token.timestamp ↔
      current_timestamp m now - m.tolerance ≤ ts ∧ ts ≤ current_timestamp m now + m.tolerance) ∧
    ((L.length : Int) = 1 + 2 * m.tolerance) ∧
    (∀ tok ∈ L, tok.token = tokenString m.secret tok.timestamp) := by
  subst hL
  set ct := current_timestamp m now with hct
  set needed := retained.foldl (fun acc tok => acc.filter (fun t => t ≠ tok.timestamp))
      (rangeIncl (ct - m.tolerance) (ct + m.tolerance)) with hneeded
  have hmem_needed : ∀ x : Int, x ∈ needed ↔
      ((ct - m.tolerance ≤ x ∧ x ≤ ct + m.tolerance) ∧ ∀ tok ∈ retained, x ≠ tok.timestamp) := by
    intro x
    rw [hneeded, foldl_filter_mem, mem_rangeIncl]
  have hnd_needed : needed.Nodup :=
    (nodup_rangeIncl _ _).sublist (foldl_filter_sublist _ _)
  have hmap_gen : (needed.map (fun timestamp => generate_token_with_offset m now (timestamp - ct))).map
      Token.timestamp = needed := by
    rw [List.map_map]
    have h1 : ∀ ts ∈ needed,
        (Token.timestamp ∘ fun timestamp => generate_token_with_offset m now (timestamp - ct)) ts
          = id ts := by
      intro ts _
      simp [Function.comp, generate_at m now ts]
    rw [List.map_congr_left h1, List.map_id]
  have hmap_app : (retained ++ needed.map (fun timestamp => generate_token_with_offset m now (timestamp - ct))).map
      Token.timestamp = retained.map Token.timestamp ++ needed := by
    rw [List.map_append, hmap_gen]
  have hmem : ∀ ts : Int,
      ts ∈ (retained ++ needed.map (fun timestamp => generate_token_with_offset m now (timestamp - ct))).map
        Token.timestamp ↔ ct - m.tolerance ≤ ts ∧ ts ≤ ct + m.tolerance := by
    intro ts
    rw [hmap_app, List.mem_append]
    constructor
    · rintro (h | h)
      · rcases List.mem_map.mp h with ⟨tok, htok, rfl⟩
        exact hwin tok htok
      · exact ((hmem_needed ts).mp h).1
    · intro hts
      by_cases hr : ts ∈ retained.map Token.timestamp
      · exact Or.inl hr
      · refine Or.inr ((hmem_needed ts).mpr ⟨hts, ?_⟩)
        intro tok htok heq
        exact hr (List.mem_map.mpr ⟨tok, htok, heq.symm⟩)
  have hnd_all : ((retained ++ needed.map (fun timestamp => generate_token_with_offset m now (timestamp - ct))).map
      Token.timestamp).Nodup := by
    rw [hmap_app]
    rw [List.nodup_append]
    refine ⟨hnd, hnd_needed, ?_⟩
    intro x hx hx'
    rcases List.mem_map.mp hx with ⟨tok, htok, rfl⟩
    exact ((hmem_needed _).mp hx').2 tok htok rfl
  refine ⟨hnd_all, hmem, ?_, ?_⟩
  · have hlen := nodup_full_length (a := ct - m.tolerance) (b := ct + m.tolerance)
      (by omega) hnd_all hmem
    have hlm : ((retained ++ needed.map (fun timestamp => generate_token_with_offset m now (timestamp - ct))).map
        Token.timestamp).length =
        (retained ++ needed.map (fun timestamp => generate_token_with_offset m now (timestamp - ct))).length :=
      List.length_map _ _
    omega
  · intro tok htok
    rcases List.mem_append.mp htok with h | h
    · exact hstr tok h
    · rcases List.mem_map.mp h with ⟨ts, _, rfl⟩
      rw [generate_at m now ts]

theorem refresh_fields (m : RollingTokenManager) (now : Nat) :
    (refresh_tokens m now).secret = m.secret ∧ (refresh_tokens m now).interval = m.interval ∧
    (refresh_tokens m now).tolerance = m.tolerance := by
  simp only [refresh_tokens]
  split <;> exact ⟨rfl, rfl, rfl⟩

theorem refresh_spec (m : RollingTokenManager) (now : Nat)
    (hW : WellFormed m) (ht : 0 ≤ m.tolerance) :
    WellFormed (refresh_tokens m now) ∧
    (∀ ts : Int, ts ∈ (refresh_tokens m now).active_tokens.map Token.timestamp ↔
      current_timestamp m now - m.tolerance ≤ ts ∧ ts ≤ current_timestamp m now + m.tolerance) ∧
    (((refresh_tokens m now).active_tokens.length : Int) = 1 + 2 * m.tolerance) := by
  obtain ⟨hnd, hstr⟩ := hW
  have hret_sub : (m.active_tokens.filter
      (fun tok => iabs (tok.timestamp - current_timestamp m now) ≤ m.tolerance)).Sublist
      m.active_tokens := List.filter_sublist _
  have hret_nd : ((m.active_tokens.filter
      (fun tok => iabs (tok.timestamp - current_timestamp m now) ≤ m.tolerance)).map
      Token.timestamp).Nodup := hnd.sublist (hret_sub.map _)
  have hret_win : ∀ tok ∈ m.active_tokens.filter
      (fun tok => iabs (tok.timestamp - current_timestamp m now) ≤ m.tolerance),
      current_timestamp m now - m.tolerance ≤ tok.timestamp ∧
        tok.timestamp ≤ current_timestamp m now + m.tolerance := by
    intro tok h
    have h2 := (List.mem_filter.mp h).2
    rw [decide_eq_true_eq, iabs_le] at h2
    omega
  have hret_str : ∀ tok ∈ m.active_tokens.filter
      (fun tok => iabs (tok.timestamp - current_timestamp m now) ≤ m.tolerance),
      tok.token = tokenString m.secret tok.timestamp :=
    fun tok h => hstr tok (hret_sub.subset h)
  simp only [refresh_tokens, WellFormed]
  split
  next hc =>
    refine ⟨⟨hret_nd, hret_str⟩, ?_, hc⟩
    have hsub : ∀ x ∈ (m.active_tokens.filter
        (fun tok => iabs (tok.timestamp - current_timestamp m now) ≤ m.tolerance)).map Token.timestamp,
        current_timestamp m now - m.tolerance ≤ x ∧ x ≤ current_timestamp m now + m.tolerance := by
      intro x hx
      rcases List.mem_map.mp hx with ⟨tok, htok, rfl⟩
      exact hret_win tok htok
    have hlm := List.length_map (m.active_tokens.filter
        (fun tok => iabs (tok.timestamp - current_timestamp m now) ≤ m.tolerance)) Token.timestamp
    have hlen2 : (((m.active_tokens.filter
        (fun tok => iabs (tok.timestamp - current_timestamp m now) ≤ m.tolerance)).map
        Token.timestamp).length : Int) =
        (current_timestamp m now + m.tolerance) + 1 - (current_timestamp m now - m.tolerance) := by
      omega
    exact nodup_bounded_full hret_nd hsub hlen2
  next hc =>
    obtain ⟨h1, h2, h3, h4⟩ := refresh_else_spec m now
      (m.active_tokens.filter (fun tok => iabs (tok.timestamp - current_timestamp m now) ≤ m.tolerance))
      _ rfl hret_nd hret_win hret_str ht
    exact ⟨⟨h1, h4⟩, h2, h3⟩

theorem refresh_noop (m1 : RollingTokenManager) (now : Nat)
    (hfull : m1.active_tokens.filter
      (fun tok => iabs (tok.timestamp - current_timestamp m1 now) ≤ m1.tolerance) = m1.active_tokens)
    (hlen : (m1.active_tokens.length : Int) = 1 + 2 * m1.tolerance) :
    refresh_tokens m1 now = m1 := by
  simp only [refresh_tokens, hfull]
  rw [if_pos hlen]

theorem refresh_idem (m : RollingTokenManager) (now : Nat)
    (hW : WellFormed m) (ht : 0 ≤ m.tolerance) :
    refresh_tokens (refresh_tokens m now) now = refresh_tokens m now := by
  obtain ⟨hW1, hmem1, hlen1⟩ := refresh_spec m now hW ht
  obtain ⟨hsec, hint, htol⟩ := refresh_fields m now
  have hct : current_timestamp (refresh_tokens m now) now = current_timestamp m now := by
    simp [current_timestamp, hint]
  have hfil : (refresh_tokens m now).active_tokens.filter
      (fun tok => iabs (tok.timestamp - current_timestamp (refresh_tokens m now) now) ≤
        (refresh_tokens m now).tolerance) = (refresh_tokens m now).active_tokens := by
    rw [List.filter_eq_self]
    intro tok htok
    have hx : tok.timestamp ∈ (refresh_tokens m now).active_tokens.map Token.timestamp :=
      List.mem_map.mpr ⟨tok, htok, rfl⟩
    have hw := (hmem1 tok.timestamp).mp hx
    rw [hct, htol, decide_eq_true_eq, iabs_le]
    omega
  refine refresh_noop _ now hfil ?_
  rw [htol]
  exact hlen1

theorem wellFormed_new (secret : List Nat) (interval : Int) (tolerance : Option Int) :
    WellFormed (new secret interval tolerance) := by
  constructor <;> simp [new, WellFormed]

/-- Every reachable manager with non-negative tolerance satisfies the module
invariant, which justifies taking `WellFormed` as a hypothesis below. -/
theorem reachable_wellFormed (m : RollingTokenManager) (h : Reachable m)
    (ht : 0 ≤ m.tolerance) : WellFormed m := by
  induction h with
  | init secret interval tolerance => exact wellFormed_new secret interval tolerance
  | step m now token h ih =>
      have htol : (is_valid m now token).1.tolerance = m.tolerance := (refresh_fields m now).2.2
      rw [htol] at ht
      exact (refresh_spec m now (ih ht) ht).1

theorem mapM_option_some {α β : Type} (l : List α) (f : α → Option β) (g : α → β)
    (h : ∀ x ∈ l, f x = some (g x)) : l.mapM f = some (l.map g) := by
  induction l with
  | nil => rfl
  | cons x xs ih =>
      rw [List.mapM_cons, h x (List.mem_cons_self x xs),
        ih (fun y hy => h y (List.mem_cons_of_mem x hy))]
      rfl

theorem checked_current_timestamp (m : RollingTokenManager) (wall : Int)
    (hi : 0 < m.interval) (hw : 0 ≤ wall) :
    m.current_timestampChecked wall = some (m.current_timestamp wall.toNat) := by
  have hcond : ¬(m.interval = 0 ∨ (u64AsI64 wall.toNat = -9223372036854775808 ∧ m.interval = -1)) := by
    rintro (h | ⟨_, h⟩) <;> omega
  simp [current_timestampChecked, as_secs_after_epoch, not_lt.mpr hw, i64DivChecked, hcond,
    current_timestamp]

theorem checked_generate (m : RollingTokenManager) (wall offset : Int)
    (hi : 0 < m.interval) (hw : 0 ≤ wall) :
    m.generate_token_with_offsetChecked wall offset =
      some (m.generate_token_with_offset wall.toNat offset) := by
  rw [generate_token_with_offsetChecked, checked_current_timestamp m wall hi hw]
  rfl

theorem checked_refresh (m : RollingTokenManager) (wall : Int)
    (hi : 0 < m.interval) (hw : 0 ≤ wall) :
    m.refresh_tokensChecked wall = some (m.refresh_tokens wall.toNat) := by
  rw [refresh_tokensChecked, checked_current_timestamp m wall hi hw]
  show (if _ then _ else _ : Option RollingTokenManager) = _
  simp only [refresh_tokens]
  split
  · rfl
  · rw [mapM_option_some _ _
      (fun timestamp => m.generate_token_with_offset wall.toNat (timestamp - current_timestamp m wall.toNat))
      (fun ts _ => checked_generate m wall (ts - current_timestamp m wall.toNat) hi hw)]
    rfl

theorem checked_is_valid (m : RollingTokenManager) (wall : Int) (cand : String)
    (hi : 0 < m.interval) (hw : 0 ≤ wall) :
    m.is_validChecked wall cand = some (m.is_valid wall.toNat cand) := by
  rw [is_validChecked, checked_refresh m wall hi hw]
  rfl

theorem checked_current_timestamp_zero (m : RollingTokenManager) (wall : Int)
    (hw : 0 ≤ wall) (h0 : m.interval = 0) :
    m.current_timestampChecked wall = none := by
  simp [current_timestampChecked, as_secs_after_epoch, not_lt.mpr hw, i64DivChecked, h0]

theorem refresh_tokens_empty_active (m : RollingTokenManager) (now : Nat)
    (h : m.active_tokens = []) :
    (refresh_tokens m now).active_tokens =
      (rangeIncl (m.current_timestamp now - m.tolerance) (m.current_timestamp now + m.tolerance)).map
        (fun timestamp => m.generate_token_with_offset now (timestamp - m.current_timestamp now)) := by
  simp only [refresh_tokens, h, List.filter_nil, List.length_nil, Nat.cast_zero, List.foldl_nil,
    List.nil_append]
  rw [if_neg (by omega)]

/-- C1: for every well-formed manager with tolerance `t ≥ 0`, after the
refresh performed at the start of an `is_valid` call (the clock fixed at
`now` for the whole call), `active_tokens` has pairwise-distinct timestamps,
contains a token for a slot exactly when the slot lies in
`[current_slot − t, current_slot + t]`, and has size exactly `1 + 2*t`. -/
theorem is_valid_refresh_window (m : RollingTokenManager) (now : Nat) (cand : String)
    (hW : WellFormed m) (ht : 0 ≤ m.tolerance) :
    ((m.is_valid now cand).1.active_tokens.map Token.timestamp).Nodup ∧
    (∀ ts : Int, ts ∈ (m.is_valid now cand).1.active_tokens.map Token.timestamp ↔
      m.current_timestamp now - m.tolerance ≤ ts ∧ ts ≤ m.current_timestamp now + m.tolerance) ∧
    (((m.is_valid now cand).1.active_tokens.length : Int) = 1 + 2 * m.tolerance) := by
  obtain ⟨hW1, hmem, hlen⟩ := refresh_spec m now hW ht
  exact ⟨hW1.1, hmem, hlen⟩

/-- C1 witness: a freshly constructed manager with the test secret,
interval 30 and tolerance 1, refreshed at wall-clock second 370000. -/
theorem is_valid_refresh_window_witness :
    WellFormed (new testSecret 30 (some 1)) ∧ (0 : Int) ≤ (new testSecret 30 (some 1)).tolerance ∧
    ((((new testSecret 30 (some 1)).is_valid 370000 (String.mk [])).1.active_tokens.length : Int) =
      1 + 2 * (new testSecret 30 (some 1)).tolerance) :=
  ⟨by decide, by decide,
    (is_valid_refresh_window (new testSecret 30 (some 1)) 370000 (String.mk [])
      (by decide) (by decide)).2.2⟩

/-- C3: `generate_token_with_offset` returns the token for slot
`current_slot + offset`: its timestamp is that slot and its string is the
hex encoding of the HMAC-SHA256 of the slot's decimal string under the
secret — 64 characters, all lowercase hex digits. -/
theorem generate_token_with_offset_spec (m : RollingTokenManager) (now : Nat) (offset : Int) :
    (m.generate_token_with_offset now offset).timestamp = m.current_timestamp now + offset ∧
    (m.generate_token_with_offset now offset).token =
      hexEncode (hmacSha256 m.secret (strBytes (intDecimal (m.current_timestamp now + offset)))) ∧
    (m.generate_token_with_offset now offset).token.data.length = 64 ∧
    ∀ c ∈ (m.generate_token_with_offset now offset).token.data, c ∈ hexDigits :=
  ⟨rfl, rfl, tokenString_length _ _, tokenString_mem _ _⟩

/-- C6: token generation is deterministic and re-derivable without manager
state: any two managers with the same secret whose `current_timestamp` calls
fall in the same slot produce identical tokens for the same offset,
whatever their tolerances and active sets. -/
theorem generate_token_with_offset_deterministic (m1 m2 : RollingTokenManager)
    (now1 now2 : Nat) (offset : Int) (hs : m1.secret = m2.secret)
    (hslot : m1.current_timestamp now1 = m2.current_timestamp now2) :
    m1.generate_token_with_offset now1 offset = m2.generate_token_with_offset now2 offset := by
  simp [generate_token_with_offset, hs, hslot]

/-- C6 witness: two managers differing in tolerance and wall-clock second
(370000 vs 370010, both in slot 12333 at interval 30) generate the same
token. -/
theorem generate_token_with_offset_deterministic_witness :
    (new testSecret 30 (some 1)).secret = (new testSecret 30 (some 5)).secret ∧
    (new testSecret 30 (some 1)).current_timestamp 370000 =
      (new testSecret 30 (some 5)).current_timestamp 370010 ∧
    (new testSecret 30 (some 1)).generate_token_with_offset 370000 7 =
      (new testSecret 30 (some 5)).generate_token_with_offset 370010 7 :=
  ⟨by decide, by decide,
    generate_token_with_offset_deterministic (new testSecret 30 (some 1))
      (new testSecret 30 (some 5)) 370000 370010 7 (by decide) (by decide)⟩

/-- C7: with a positive interval and a wall-clock reading that is
non-negative as an `i64` (below `2^63`), `current_timestamp` is floor
division of the unix seconds by the interval: the truncating `i64` division
coincides with `Int.fdiv` and with natural-number division. -/
theorem current_timestamp_floor (m : RollingTokenManager) (now : Nat)
    (hi : 0 < m.interval) (hnow : now < 9223372036854775808) :
    m.current_timestamp now = Int.fdiv (now : Int) m.interval ∧
    m.current_timestamp now = ((now / m.interval.toNat : Nat) : Int) := by
  have hN : now % 18446744073709551616 = now := Nat.mod_eq_of_lt (by omega)
  have h1 : u64AsI64 now = (now : Int) := by
    rw [u64AsI64, hN, if_pos hnow]
  obtain ⟨k, hk⟩ : ∃ k : Nat, m.interval = (k : Int) :=
    ⟨m.interval.toNat, (Int.toNat_of_nonneg hi.le).symm⟩
  have h2 : m.current_timestamp now = ((now / k : Nat) : Int) := by
    rw [current_timestamp, h1, hk]
    rw [Int.tdiv_eq_ediv (by omega) (by omega)]
    exact (Int.ofNat_ediv now k).symm
  refine ⟨?_, ?_⟩
  · rw [h2, hk, Int.fdiv_eq_ediv _ (by omega)]
    exact Int.ofNat_ediv now k
  · rw [h2, hk]
    simp

/-- C7 witness: interval 30 at wall-clock second 370000 gives slot 12333. -/
theorem current_timestamp_floor_witness :
    (0 : Int) < (new testSecret 30 (some 1)).interval ∧
    (370000 : Nat) < 9223372036854775808 ∧
    (new testSecret 30 (some 1)).current_timestamp 370000 =
      Int.fdiv ((370000 : Nat) : Int) (new testSecret 30 (some 1)).interval :=
  ⟨by decide, by decide,
    (current_timestamp_floor (new testSecret 30 (some 1)) 370000 (by decide) (by decide)).1⟩

/-- C9: the generation methods are read-only: as state transformers they
return the manager unchanged (they take `&self`), their result does not
depend on `tolerance` or `active_tokens`, and `generate_token` is
`generate_token_with_offset 0`. -/
theorem generate_token_readonly (m : RollingTokenManager) (now : Nat) (offset t' : Int)
    (a' : List Token) :
    (m.generate_token_with_offset_call now offset).1 = m ∧
    (m.generate_token_call now).1 = m ∧
    (RollingTokenManager.mk m.secret m.interval t' a').generate_token_with_offset now offset =
      m.generate_token_with_offset now offset ∧
    m.generate_token now = m.generate_token_with_offset now 0 :=
  ⟨rfl, rfl, rfl, rfl⟩

/-- C5: `is_valid` is idempotent within a slot: a second call at the same
wall-clock second leaves the manager state (hence every stored token
string, byte for byte) unchanged, and the active set keeps size
`1 + 2*tolerance`. -/
theorem is_valid_idempotent_same_slot (m : RollingTokenManager) (now : Nat) (c1 c2 : String)
    (hW : WellFormed m) (ht : 0 ≤ m.tolerance) :
    ((m.is_valid now c1).1.is_valid now c2).1 = (m.is_valid now c1).1 ∧
    (((m.is_valid now c1).1.active_tokens.length : Int) = 1 + 2 * m.tolerance) := by
  have hidem := refresh_idem m now hW ht
  have hlen := (refresh_spec m now hW ht).2.2
  exact ⟨hidem, hlen⟩

/-- C5 witness: the fresh test manager at wall-clock second 370000. -/
theorem is_valid_idempotent_same_slot_witness :
    WellFormed (new testSecret 30 (some 1)) ∧ (0 : Int) ≤ (new testSecret 30 (some 1)).tolerance ∧
    (((new testSecret 30 (some 1)).is_valid 370000 (String.mk [])).1.is_valid 370000
      (String.mk [])).1 = ((new testSecret 30 (some 1)).is_valid 370000 (String.mk [])).1 :=
  ⟨by decide, by decide,
    (is_valid_idempotent_same_slot (new testSecret 30 (some 1)) 370000 (String.mk [])
      (String.mk []) (by decide) (by decide)).1⟩

/-- C2: a token generated at offset `o` and checked by `is_valid` in the same
slot is accepted exactly when `|o| ≤ tolerance`: accepted for `|o| ≤ t`
because the refreshed window holds the identical derived string, rejected
for `|o| > t` since membership is exact string equality and (hypothesis
`hcoll`, discharged by computation in the witness) no window slot's token
string collides with the candidate's. -/
theorem is_valid_window_acceptance (m : RollingTokenManager) (now : Nat) (offset : Int)
    (hW : WellFormed m) (ht : 0 ≤ m.tolerance)
    (hcoll : m.tolerance < iabs offset →
      ∀ s ∈ rangeIncl (m.current_timestamp now - m.tolerance)
        (m.current_timestamp now + m.tolerance),
        tokenString m.secret s ≠ (m.generate_token_with_offset now offset).token) :
    (m.is_valid now (m.generate_token_with_offset now offset).token).2 =
      decide (iabs offset ≤ m.tolerance) := by
  obtain ⟨hW1, hmem, _⟩ := refresh_spec m now hW ht
  obtain ⟨hsec, _, _⟩ := refresh_fields m now
  have hcand : (m.generate_token_with_offset now offset).token =
      tokenString m.secret (m.current_timestamp now + offset) := rfl
  show ((refresh_tokens m now).active_tokens.any
      (fun t => t.token == (m.generate_token_with_offset now offset).token)) = _
  by_cases ho : iabs offset ≤ m.tolerance
  · rw [decide_eq_true ho, List.any_eq_true]
    have hwin : m.current_timestamp now - m.tolerance ≤ m.current_timestamp now + offset ∧
        m.current_timestamp now + offset ≤ m.current_timestamp now + m.tolerance := by
      rw [iabs_le] at ho
      omega
    rcases List.mem_map.mp ((hmem (m.current_timestamp now + offset)).mpr hwin) with
      ⟨tok, htok, hts⟩
    refine ⟨tok, htok, ?_⟩
    rw [beq_iff_eq, hW1.2 tok htok, hsec, hts, hcand]
  · rw [decide_eq_false ho, List.any_eq_false]
    intro tok htok
    rw [beq_iff_eq]
    have hwin := (hmem tok.timestamp).mp (List.mem_map.mpr ⟨tok, htok, rfl⟩)
    have hne := hcoll (not_le.mp ho) tok.timestamp ((mem_rangeIncl _ _ _).mpr hwin)
    rw [hW1.2 tok htok, hsec]
    exact hne

set_option maxRecDepth 40000

/-- C2 witness: the test manager (interval 30, tolerance 1) at wall-clock
second 370000 with offset 2; the collision-freedom hypothesis is discharged
by computing all four HMAC-SHA256 token strings in the kernel. -/
theorem is_valid_window_acceptance_witness :
    WellFormed (new testSecret 30 (some 1)) ∧ (0 : Int) ≤ (new testSecret 30 (some 1)).tolerance ∧
    ((new testSecret 30 (some 1)).is_valid 370000
        ((new testSecret 30 (some 1)).generate_token_with_offset 370000 2).token).2 =
      decide (iabs 2 ≤ (new testSecret 30 (some 1)).tolerance) :=
  ⟨by decide, by decide,
    is_valid_window_acceptance (new testSecret 30 (some 1)) 370000 2 (by decide) (by decide)
      (by decide)⟩

/-- C8: `is_valid` has no error path: under the construction precondition
(`interval > 0`, clock at or after the epoch) the checked embedding always
returns a value, and on a fresh manager any candidate that is not a 64-hex
string — such as `"invalid_token"` — yields `false`, because every token the
refresh puts in the active set is a 64-character derived string. -/
theorem is_valid_never_errors (secret : List Nat) (interval : Int) (tolerance : Option Int)
    (wall : Int) (cand : String) (hi : 0 < interval) (hw : 0 ≤ wall)
    (hc : cand.data.length ≠ 64) :
    (new secret interval tolerance).is_validChecked wall cand =
      some ((new secret interval tolerance).is_valid wall.toNat cand) ∧
    ((new secret interval tolerance).is_valid wall.toNat cand).2 = false := by
  refine ⟨checked_is_valid _ wall cand hi hw, ?_⟩
  show ((refresh_tokens (new secret interval tolerance) wall.toNat).active_tokens.any
      (fun t => t.token == cand)) = false
  rw [List.any_eq_false]
  intro tok htok
  rw [beq_iff_eq]
  intro heq
  have h64 : tok.token.data.length = 64 := by
    rw [refresh_tokens_empty_active _ _ rfl] at htok
    rcases List.mem_map.mp htok with ⟨ts, _, rfl⟩
    rw [generate_at]
    exact tokenString_length _ _
  rw [heq] at h64
  exact hc h64

/-- C8 witness: a fresh manager rejects `"invalid_token"` without error. -/
theorem is_valid_never_errors_witness :
    (0 : Int) < 30 ∧ (0 : Int) ≤ 370000 ∧ ("invalid_token").data.length ≠ 64 ∧
    ((new testSecret 30 none).is_valid ((370000 : Int)).toNat ("invalid_token")).2 = false :=
  ⟨by decide, by decide, by decide,
    (is_valid_never_errors testSecret 30 none 370000 ("invalid_token") (by decide) (by decide)
      (by decide)).2⟩

/-- C10: the only panic in the quantized-time operations is the division by
`interval`: with the clock at or after the epoch, `interval = 0` makes
`current_timestamp` (and hence generation and validation) panic, while
`interval > 0` makes every operation total and equal to its pure embedding
(the HMAC key-size `expect` accepts any key length and never fires). -/
theorem operations_panic_freedom (m : RollingTokenManager) (wall offset : Int) (cand : String)
    (hw : 0 ≤ wall) :
    (m.interval = 0 → m.current_timestampChecked wall = none ∧
      m.generate_token_with_offsetChecked wall offset = none ∧
      m.is_validChecked wall cand = none) ∧
    (0 < m.interval → m.current_timestampChecked wall = some (m.current_timestamp wall.toNat) ∧
      m.generate_token_with_offsetChecked wall offset =
        some (m.generate_token_with_offset wall.toNat offset) ∧
      m.refresh_tokensChecked wall = some (m.refresh_tokens wall.toNat) ∧
      m.is_validChecked wall cand = some (m.is_valid wall.toNat cand)) := by
  constructor
  · intro h0
    have hc := checked_current_timestamp_zero m wall hw h0
    refine ⟨hc, ?_, ?_⟩
    · rw [generate_token_with_offsetChecked, hc]
      rfl
    · rw [is_validChecked, refresh_tokensChecked, hc]
      rfl
  · intro hi
    exact ⟨checked_current_timestamp m wall hi hw, checked_generate m wall offset hi hw,
      checked_refresh m wall hi hw, checked_is_valid m wall cand hi hw⟩

/-- C10 witness: at interval 0 the slot computation panics (divide by zero);
at interval 30 it is total. -/
theorem operations_panic_freedom_witness :
    (0 : Int) ≤ 100 ∧ (new testSecret 0 none).current_timestampChecked 100 = none ∧
    (new testSecret 30 none).current_timestampChecked 100 =
      some ((new testSecret 30 none).current_timestamp ((100 : Int)).toNat) :=
  ⟨by decide,
    ((operations_panic_freedom (new testSecret 0 none) 100 5 (String.mk []) (by decide)).1
      rfl).1,
    ((operations_panic_freedom (new testSecret 30 none) 100 5 (String.mk []) (by decide)).2
      (by decide)).1⟩

/-- C4 counterexample: `new` performs no validation — with `interval = 0`
and `tolerance = -1` it still constructs a manager (no `InvalidInterval` or
`InvalidTolerance` rejection), and that manager's slot computation then
panics with a division by zero. -/
theorem new_accepts_invalid_arguments :
    (new [] 0 (some (-1))).interval = 0 ∧ (new [] 0 (some (-1))).tolerance = -1 ∧
    (new [] 0 (some (-1))).current_timestampChecked 100 = none :=
  ⟨rfl, rfl, by decide⟩

/-- C4 (amended): `new` validates nothing and rejects nothing; it stores the
secret and interval verbatim for every argument, defaults the tolerance to 1
when unspecified, and starts with an empty active set. -/
theorem new_stores_verbatim (secret : List Nat) (interval : Int) (tolerance : Option Int) :
    (new secret interval tolerance).secret = secret ∧
    (new secret interval tolerance).interval = interval ∧
    (new secret interval tolerance).tolerance = tolerance.getD 1 ∧
    (new secret interval (none : Option Int)).tolerance = 1 ∧
    (new secret interval tolerance).active_tokens = [] :=
  ⟨rfl, rfl, rfl, rfl, rfl⟩

end RollingTokenManager

end RollingToken
